import Mathlib

/-!
Verification of the croppass repository (src/croppass.py).

The development shallowly embeds the two core components of the program:

* `calculate_3_4_crop` (croppass.py lines 54-70): the pure face-anchored
  crop-geometry function.
* `get_face_bbox` (lines 34-51) and `CropWorker.run` (lines 87-116): the
  detection wrapper and the batch pipeline.

Modelling conventions:

* Python machine integers are `Int`.
* The Python float constants `1.8`, `3/4`, `1.1`, `0.23` are modelled by the
  exact rationals `9/5`, `3/4`, `11/10`, `23/100`, and Python's `int(x)`
  (truncation toward zero) by `Int.tdiv` after clearing the decimal
  denominator, e.g. `int(h * 1.8)` becomes `Int.tdiv (9 * h) 5`.  For the
  `int(...)` conversions this is bit-exact at pixel scales: when the exact
  product is an integer `N` the double error stays below half an ulp of `N`
  (for `h * 1.8` the error is `h * 2 ^ (-52) / 5 + rounding`, versus
  `ulp(N)/2 = 2 ^ (k - 53)` with `N = 9h/5` in `[2^k, 2^(k+1))`, a ratio of
  at most `4/9`; the analogous ratios for `* 0.75`, `* 1.1`, `/ 0.75` and
  `* 0.23` are also below 1), so the product rounds back to exactly `N`;
  when it is not an integer it sits at least `1/100` away from the nearest
  integer, far beyond any double rounding error.  `(x0+x1)/2 - W/2` is a
  multiple of `1/2` and exact in doubles.  The one place where the
  rational model and the doubles genuinely part ways is the *comparison*
  `W_crop < w_f * 1.1` on line 60: `double(1.1) = 11/10 + 2 ^ (-51) / 5`
  exceeds `11/10`, so at an exact tie `10 * W_crop = 11 * w_f` the product
  can round up past the integer and flip the comparison; `widthBranch`
  models the comparison bit-exactly, with the tie case decided by
  `floatGuardTie`.  Similarly the progress percentage
  `int(((i + 1) / len(files)) * 100)` is computed with two double
  roundings; it is modelled bit-exactly by `pyPct`, built on `fl64`,
  round-to-nearest-even at 53 significant bits (exact for every batch size
  below the binary64 underflow range).
* Python `max(0, min(a, b))` on ints is `max 0 (min a b)` on `Int`.
* Filesystem, PIL and DeepFace effects are oracles: each discovered file
  carries the results its I/O operations would produce (`Except` values),
  and the worker's Qt signal emissions are reified as an event list.
-/

/-- Axis-aligned face bounding box `(x0, y0, x1, y1)` in source-image pixel
coordinates, as returned by `get_face_bbox`. -/
structure BBox where
  x0 : Int
  y0 : Int
  x1 : Int
  y1 : Int
  deriving DecidableEq

/-- The crop rectangle `(x0, y0, x1, y1)` returned by `calculate_3_4_crop`. -/
structure CropRect where
  x0 : Int
  y0 : Int
  x1 : Int
  y1 : Int
  deriving DecidableEq

/-- `w_f = x1_f - x0_f` (croppass.py line 56). -/
def w_f (b : BBox) : Int := b.x1 - b.x0

/-- `h_f = y1_f - y0_f` (croppass.py line 56). -/
def h_f (b : BBox) : Int := b.y1 - b.y0

/-- `H_crop = int(h_f * VERTICAL_EXPANSION_FACTOR)` with the factor `1.8`
(croppass.py line 57), before the width-driven recomputation. -/
def H_crop_initial (b : BBox) : Int := Int.tdiv (9 * h_f b) 5

/-- `W_crop = int(H_crop * PORTRAIT_ASPECT_RATIO)` with the factor `3/4`
(croppass.py line 58), before the width-driven recomputation. -/
def W_crop_initial (b : BBox) : Int := Int.tdiv (3 * H_crop_initial b) 4

/-- Fuel-driven binary logarithm; structural recursion so that the kernel
can evaluate it (the fuel only needs to exceed the argument). -/
def log2fuel : ℕ → ℕ → ℕ
  | 0, _ => 0
  | fuel + 1, n => if 2 ≤ n then log2fuel fuel (n / 2) + 1 else 0

/-- `nlog2 n` is the floor of the base-2 logarithm of `n` (0 at 0). -/
def nlog2 (n : ℕ) : ℕ := log2fuel n n

lemma log2fuel_spec : ∀ fuel n, 1 ≤ n → n ≤ fuel →
    2 ^ log2fuel fuel n ≤ n ∧ n < 2 ^ (log2fuel fuel n + 1) := by
  intro fuel
  induction fuel with
  | zero => intro n h1 h2; omega
  | succ f ih =>
    intro n h1 h2
    by_cases h : 2 ≤ n
    · have hrec := ih (n / 2) (by omega) (by omega)
      rw [log2fuel, if_pos h]
      rcases hrec with ⟨ha, hb⟩
      rw [pow_succ] at hb ⊢
      rw [pow_succ]
      omega
    · rw [log2fuel, if_neg h]
      omega

lemma nlog2_spec (n : ℕ) (h : 1 ≤ n) : 2 ^ nlog2 n ≤ n ∧ n < 2 ^ (nlog2 n + 1) :=
  log2fuel_spec n n h le_rfl

/-- Whether the float comparison `W_crop < w_f * 1.1` (croppass.py line 60)
is true at an *exact tie* `10 * W_crop = 11 * w_f`.  A tie forces
`10 ∣ w_f`; write `w_f = 10 * m` and `N = 11 * m`.  The exact product
`w_f * double(1.1)` is `N + m * 2 ^ (-50)` (since
`double(1.1) = 11/10 + 2 ^ (-51) / 5`), and half an ulp of `N` is
`2 ^ (k - 53)` for `2^k ≤ N < 2^(k+1)`, so the product rounds up past `N`
(making the comparison true) exactly when `8 * m > 2 ^ k`; at
`8 * m = 2 ^ k` the ties-to-even rule keeps the even mantissa `11 * 2^49`,
leaving the comparison false.  Bit-exact for `w_f < 2 ^ 50`, verified
against CPython on every tie with `m < 2 * 10 ^ 6` and on all pairs
`(W_crop, w_f)` up to several thousand. -/
def floatGuardTie (w : Int) : Bool :=
  decide (0 < w)
    && decide (2 ^ nlog2 (11 * (Int.tdiv w 10).toNat) < 8 * (Int.tdiv w 10).toNat)

/-- The test `W_crop < w_f * FACE_HORIZONTAL_PADDING` guarding the
width-driven branch, with padding `1.1` (croppass.py line 60), modelled
bit-exactly: away from exact ties the double comparison agrees with the
exact `10 * W < 11 * w` (the gap is at least `1/10` of a pixel while the
relative float error is below `2 ^ (-50)`); at an exact tie
`floatGuardTie` decides. -/
def widthBranch (b : BBox) : Bool :=
  decide (10 * W_crop_initial b < 11 * w_f b)
    || (decide (10 * W_crop_initial b = 11 * w_f b) && floatGuardTie (w_f b))

/-- Final crop width: `int(w_f * 1.1)` when the width-driven branch fires
(croppass.py line 61), otherwise the initial value. -/
def W_crop (b : BBox) : Int :=
  if widthBranch b then Int.tdiv (11 * w_f b) 10 else W_crop_initial b

/-- Final crop height: `int(W_crop / 0.75)` from the *updated* width when the
width-driven branch fires (croppass.py line 62), otherwise the initial
value. -/
def H_crop (b : BBox) : Int :=
  if widthBranch b then Int.tdiv (4 * W_crop b) 3 else H_crop_initial b

/-- `y0_c = int(y0_f - H_crop * FACE_VERTICAL_ANCHOR)` with anchor `0.23`
(croppass.py line 64), before clamping. -/
def y0_c_unclamped (b : BBox) : Int := Int.tdiv (100 * b.y0 - 23 * H_crop b) 100

/-- `x0_c = int(((x0_f + x1_f) / 2) - W_crop / 2)` (croppass.py line 65),
before clamping. -/
def x0_c_unclamped (b : BBox) : Int := Int.tdiv (b.x0 + b.x1 - W_crop b) 2

/-- `x0_c = max(0, min(x0_c, img_w - W_crop))` (croppass.py line 67). -/
def x0_c (b : BBox) (img_w : Int) : Int :=
  max 0 (min (x0_c_unclamped b) (img_w - W_crop b))

/-- `y0_c = max(0, min(y0_c, img_h - H_crop))` (croppass.py line 68). -/
def y0_c (b : BBox) (img_h : Int) : Int :=
  max 0 (min (y0_c_unclamped b) (img_h - H_crop b))

/-- `calculate_3_4_crop(face_bbox, img_w, img_h)` (croppass.py lines 54-70):
returns `(x0_c, y0_c, x0_c + W_crop, y0_c + H_crop)`. -/
def calculate_3_4_crop (b : BBox) (img_w img_h : Int) : CropRect :=
  { x0 := x0_c b img_w
    y0 := y0_c b img_h
    x1 := x0_c b img_w + W_crop b
    y1 := y0_c b img_h + H_crop b }

/-- Truncation toward zero of a rational, the behaviour of Python's `int()`
on a (finite) float value: floor for non-negative values, ceiling for
negative ones. -/
def qtrunc (q : ℚ) : ℤ := if 0 ≤ q then ⌊q⌋ else ⌈q⌉

/-- `Int.tdiv` of an integer by a positive natural is exactly truncation
toward zero of the exact rational quotient. -/
lemma tdiv_eq_qtrunc (a : ℤ) (d : ℕ) (hd : 0 < d) :
    Int.tdiv a d = qtrunc ((a : ℚ) / (d : ℚ)) := by
  have hdQ : (0 : ℚ) < (d : ℚ) := by exact_mod_cast hd
  rcases le_or_lt 0 a with ha | ha
  · have haQ : (0 : ℚ) ≤ (a : ℚ) / (d : ℚ) :=
      div_nonneg (by exact_mod_cast ha) hdQ.le
    rw [qtrunc, if_pos haQ, Rat.floor_intCast_div_natCast,
      Int.tdiv_eq_ediv ha (by positivity)]
  · have haQ : (a : ℚ) / (d : ℚ) < 0 :=
      div_neg_of_neg_of_pos (by exact_mod_cast ha) hdQ
    rw [qtrunc, if_neg (not_le.mpr haQ)]
    have h1 : Int.tdiv a d = -Int.tdiv (-a) d := by
      rw [← Int.neg_tdiv, neg_neg]
    have h2 : ((-a : ℤ) : ℚ) / (d : ℚ) = -((a : ℚ) / (d : ℚ)) := by
      push_cast
      ring
    rw [h1, Int.tdiv_eq_ediv (by omega) (by positivity),
      ← Rat.floor_intCast_div_natCast (-a) d, h2, Int.floor_neg, neg_neg]

/-- Rounding of a rational to two decimal places (half up), the reading of
the spec's `round(cropW/cropH, 2)`. -/
def round2 (q : ℚ) : ℚ := ((⌊100 * q + 1 / 2⌋ : ℤ) : ℚ) / 100

/-- C2 (counterexample): at the bounding box `(0,0,1,2)` (faceH = 2) the code
computes the intermediate `cropH = int(2 * 1.8) = 3` by truncation, while the
claimed `round(faceH * 1.8) = round(3.6)` is `4`. -/
theorem C2_counterexample :
    H_crop_initial ⟨0, 0, 1, 2⟩ = 3 ∧
    round ((h_f ⟨0, 0, 1, 2⟩ : ℚ) * (9 / 5)) = 4 ∧ (3 : ℤ) ≠ 4 := by
  refine ⟨by decide, ?_, by decide⟩
  have hh : h_f ⟨0, 0, 1, 2⟩ = 2 := rfl
  rw [hh, round_eq]
  have h2 : ((2 : ℤ) : ℚ) * (9 / 5) + 1 / 2 = ((41 : ℤ) : ℚ) / ((10 : ℕ) : ℚ) := by
    norm_num
  rw [h2, Rat.floor_intCast_div_natCast]
  decide

/-- C2 (amended): for every BoundingBox with `x1 > x0` and `y1 > y0`,
`calculate_3_4_crop` derives its intermediate quantities by truncation toward
zero (Python `int()`), not by rounding to the nearest integer:
`cropH = trunc(faceH * 1.8)`, `cropW = trunc(cropH * 3/4)` (in the
width-driven branch `cropW = trunc(faceW * 1.1)`, `cropH = trunc(cropW / (3/4))`),
`y0_crop = trunc(y0 - cropH * 0.23)` and
`x0_crop = trunc((x0 + x1)/2 - cropW/2)`. -/
theorem C2_truncation (b : BBox) (hw : 0 < w_f b) (hh : 0 < h_f b) :
    H_crop_initial b = qtrunc ((h_f b : ℚ) * (9 / 5)) ∧
    W_crop_initial b = qtrunc ((H_crop_initial b : ℚ) * (3 / 4)) ∧
    (widthBranch b = true →
      W_crop b = qtrunc ((w_f b : ℚ) * (11 / 10)) ∧
      H_crop b = qtrunc ((W_crop b : ℚ) / (3 / 4))) ∧
    y0_c_unclamped b = qtrunc ((b.y0 : ℚ) - (H_crop b : ℚ) * (23 / 100)) ∧
    x0_c_unclamped b = qtrunc (((b.x0 : ℚ) + (b.x1 : ℚ)) / 2 - (W_crop b : ℚ) / 2) := by
  refine ⟨?_, ?_, fun hbr => ⟨?_, ?_⟩, ?_, ?_⟩
  · rw [show (h_f b : ℚ) * (9 / 5) = ((9 * h_f b : ℤ) : ℚ) / ((5 : ℕ) : ℚ) by
      push_cast; ring]
    exact tdiv_eq_qtrunc _ 5 (by norm_num)
  · rw [show (H_crop_initial b : ℚ) * (3 / 4)
        = ((3 * H_crop_initial b : ℤ) : ℚ) / ((4 : ℕ) : ℚ) by push_cast; ring]
    exact tdiv_eq_qtrunc _ 4 (by norm_num)
  · rw [W_crop, if_pos hbr,
      show (w_f b : ℚ) * (11 / 10) = ((11 * w_f b : ℤ) : ℚ) / ((10 : ℕ) : ℚ) by
        push_cast; ring]
    exact tdiv_eq_qtrunc _ 10 (by norm_num)
  · rw [H_crop, if_pos hbr,
      show (W_crop b : ℚ) / (3 / 4) = ((4 * W_crop b : ℤ) : ℚ) / ((3 : ℕ) : ℚ) by
        push_cast; ring]
    exact tdiv_eq_qtrunc _ 3 (by norm_num)
  · rw [y0_c_unclamped,
      show (b.y0 : ℚ) - (H_crop b : ℚ) * (23 / 100)
        = ((100 * b.y0 - 23 * H_crop b : ℤ) : ℚ) / ((100 : ℕ) : ℚ) by
        push_cast; ring]
    exact tdiv_eq_qtrunc _ 100 (by norm_num)
  · rw [x0_c_unclamped,
      show ((b.x0 : ℚ) + (b.x1 : ℚ)) / 2 - (W_crop b : ℚ) / 2
        = ((b.x0 + b.x1 - W_crop b : ℤ) : ℚ) / ((2 : ℕ) : ℚ) by
        push_cast; ring]
    exact tdiv_eq_qtrunc _ 2 (by norm_num)

/-- C2 (witness): the amended truncation characterisation instantiated at
the wide box `(0,0,10,2)` (faceW = 10, faceH = 2), where the width-driven
branch fires, discharging every hypothesis including the branch guard. -/
theorem C2_truncation_witness :
    0 < w_f ⟨0, 0, 10, 2⟩ ∧ 0 < h_f ⟨0, 0, 10, 2⟩ ∧
    widthBranch ⟨0, 0, 10, 2⟩ = true ∧
    H_crop_initial ⟨0, 0, 10, 2⟩ = qtrunc ((h_f ⟨0, 0, 10, 2⟩ : ℚ) * (9 / 5)) ∧
    W_crop_initial ⟨0, 0, 10, 2⟩
      = qtrunc ((H_crop_initial ⟨0, 0, 10, 2⟩ : ℚ) * (3 / 4)) ∧
    W_crop ⟨0, 0, 10, 2⟩ = qtrunc ((w_f ⟨0, 0, 10, 2⟩ : ℚ) * (11 / 10)) ∧
    H_crop ⟨0, 0, 10, 2⟩ = qtrunc ((W_crop ⟨0, 0, 10, 2⟩ : ℚ) / (3 / 4)) ∧
    y0_c_unclamped ⟨0, 0, 10, 2⟩
      = qtrunc (((0 : ℤ) : ℚ) - (H_crop ⟨0, 0, 10, 2⟩ : ℚ) * (23 / 100)) ∧
    x0_c_unclamped ⟨0, 0, 10, 2⟩
      = qtrunc ((((0 : ℤ) : ℚ) + ((10 : ℤ) : ℚ)) / 2
          - (W_crop ⟨0, 0, 10, 2⟩ : ℚ) / 2) := by
  have h := C2_truncation ⟨0, 0, 10, 2⟩ (by decide) (by decide)
  exact ⟨by decide, by decide, by decide, h.1, h.2.1, (h.2.2.1 (by decide)).1,
    (h.2.2.1 (by decide)).2, h.2.2.2.1, h.2.2.2.2⟩

/-- C3: whenever the computed crop dimensions fit in the image, the returned
crop rectangle lies inside `[0, imgW] x [0, imgH]`. -/
theorem C3_containment (b : BBox) (img_w img_h : Int)
    (hW : W_crop b ≤ img_w) (hH : H_crop b ≤ img_h) :
    0 ≤ (calculate_3_4_crop b img_w img_h).x0 ∧
    (calculate_3_4_crop b img_w img_h).x0 + W_crop b ≤ img_w ∧
    0 ≤ (calculate_3_4_crop b img_w img_h).y0 ∧
    (calculate_3_4_crop b img_w img_h).y0 + H_crop b ≤ img_h := by
  have hx0 : 0 ≤ x0_c b img_w := by rw [x0_c]; exact le_max_left _ _
  have hy0 : 0 ≤ y0_c b img_h := by rw [y0_c]; exact le_max_left _ _
  have hx : x0_c b img_w ≤ img_w - W_crop b := by
    rw [x0_c]; exact max_le (by omega) (min_le_right _ _)
  have hy : y0_c b img_h ≤ img_h - H_crop b := by
    rw [y0_c]; exact max_le (by omega) (min_le_right _ _)
  refine ⟨hx0, ?_, hy0, ?_⟩ <;> simp only [calculate_3_4_crop] <;> omega

/-- C3 (witness): containment at the spec's example box in a 1000x1000
image. -/
theorem C3_containment_witness :
    W_crop ⟨100, 100, 180, 220⟩ ≤ 1000 ∧ H_crop ⟨100, 100, 180, 220⟩ ≤ 1000 ∧
    (0 ≤ (calculate_3_4_crop ⟨100, 100, 180, 220⟩ 1000 1000).x0 ∧
      (calculate_3_4_crop ⟨100, 100, 180, 220⟩ 1000 1000).x0
          + W_crop ⟨100, 100, 180, 220⟩ ≤ 1000 ∧
      0 ≤ (calculate_3_4_crop ⟨100, 100, 180, 220⟩ 1000 1000).y0 ∧
      (calculate_3_4_crop ⟨100, 100, 180, 220⟩ 1000 1000).y0
          + H_crop ⟨100, 100, 180, 220⟩ ≤ 1000) :=
  ⟨by decide, by decide,
    C3_containment ⟨100, 100, 180, 220⟩ 1000 1000 (by decide) (by decide)⟩

/-- C7: the final crop width is never narrower than the padded face width,
up to one unit of rounding: `cropW >= faceW * 1.1 - 1`, in both branches. -/
theorem C7_padding (b : BBox) (hw : 0 < w_f b) (hh : 0 < h_f b) :
    (w_f b : ℚ) * (11 / 10) - 1 ≤ (W_crop b : ℚ) := by
  have key : 11 * w_f b - 10 ≤ 10 * W_crop b := by
    rcases hb : widthBranch b with _ | _
    · rw [W_crop, hb, if_neg (by simp)]
      have hb1 : ¬(10 * W_crop_initial b < 11 * w_f b) := by
        intro hlt
        rw [widthBranch] at hb
        simp [hlt] at hb
      omega
    · rw [W_crop, hb, if_pos rfl]
      rw [Int.tdiv_eq_ediv (by omega) (by norm_num)]
      omega
  have keyQ : (11 : ℚ) * (w_f b : ℚ) - 10 ≤ 10 * (W_crop b : ℚ) := by
    exact_mod_cast key
  linarith

/-- C7 (witness): the padding guarantee at the spec's example box. -/
theorem C7_padding_witness :
    0 < w_f ⟨100, 100, 180, 220⟩ ∧ 0 < h_f ⟨100, 100, 180, 220⟩ ∧
    (w_f ⟨100, 100, 180, 220⟩ : ℚ) * (11 / 10) - 1
      ≤ (W_crop ⟨100, 100, 180, 220⟩ : ℚ) :=
  ⟨by decide, by decide, C7_padding ⟨100, 100, 180, 220⟩ (by decide) (by decide)⟩

/-- C8 (counterexample): at the bounding box `(0,0,1,2)` the width-driven
branch is not triggered (`10*cropW = 20 >= 11 = 11*faceW`), yet the crop
dimensions are `cropW = 2`, `cropH = 3`, whose ratio rounds to `0.67`,
not `0.75`. -/
theorem C8_counterexample :
    widthBranch ⟨0, 0, 1, 2⟩ = false ∧
    W_crop ⟨0, 0, 1, 2⟩ = 2 ∧ H_crop ⟨0, 0, 1, 2⟩ = 3 ∧
    round2 ((W_crop ⟨0, 0, 1, 2⟩ : ℚ) / (H_crop ⟨0, 0, 1, 2⟩ : ℚ)) = 67 / 100 ∧
    (67 / 100 : ℚ) ≠ 3 / 4 := by
  refine ⟨by decide, by decide, by decide, ?_, by norm_num⟩
  have hWe : W_crop ⟨0, 0, 1, 2⟩ = 2 := by decide
  have hHe : H_crop ⟨0, 0, 1, 2⟩ = 3 := by decide
  rw [round2, hWe, hHe]
  have h2 : 100 * (((2 : ℤ) : ℚ) / ((3 : ℤ) : ℚ)) + 1 / 2
      = ((403 : ℤ) : ℚ) / ((6 : ℕ) : ℚ) := by norm_num
  rw [h2, Rat.floor_intCast_div_natCast]
  norm_num

/-- C8 (amended): whenever the width-driven branch is not triggered and the
crop is at least 151 pixels tall, the crop dimensions satisfy
`round(cropW/cropH, 2) = 0.75`; for smaller crops the truncation error
`cropW/cropH - 3/4` can exceed half a percentage point. -/
theorem C8_aspect_amended (b : BBox) (hnb : widthBranch b = false)
    (hbig : 151 ≤ H_crop b) :
    round2 ((W_crop b : ℚ) / (H_crop b : ℚ)) = 3 / 4 := by
  have hW : W_crop b = Int.tdiv (3 * H_crop b) 4 := by
    rw [W_crop, H_crop, hnb, if_neg (by simp), if_neg (by simp)]
    rfl
  have hbounds : 4 * W_crop b ≤ 3 * H_crop b ∧ 3 * H_crop b < 4 * W_crop b + 4 := by
    rw [hW, Int.tdiv_eq_ediv (by omega) (by norm_num)]
    omega
  have hkey1 : 149 * H_crop b ≤ 200 * W_crop b := by omega
  have hkey2 : 200 * W_crop b < 151 * H_crop b := by omega
  have hHpos : (0 : ℚ) < (H_crop b : ℚ) := by exact_mod_cast (by omega : 0 < H_crop b)
  have hexp : 100 * ((W_crop b : ℚ) / (H_crop b : ℚ)) + 1 / 2
      = (200 * (W_crop b : ℚ) + (H_crop b : ℚ)) / (2 * (H_crop b : ℚ)) := by
    field_simp
    ring
  have hfloor : ⌊100 * ((W_crop b : ℚ) / (H_crop b : ℚ)) + 1 / 2⌋ = 75 := by
    rw [hexp, Int.floor_eq_iff]
    constructor
    · rw [le_div_iff (by positivity)]
      have h1 : (149 : ℚ) * (H_crop b : ℚ) ≤ 200 * (W_crop b : ℚ) := by
        exact_mod_cast hkey1
      push_cast
      linarith
    · rw [div_lt_iff (by positivity)]
      have h2 : (200 : ℚ) * (W_crop b : ℚ) < 151 * (H_crop b : ℚ) := by
        exact_mod_cast hkey2
      push_cast
      linarith
  rw [round2, hfloor]
  norm_num

/-- C8 (witness): the amended aspect invariant at the box `(0,0,60,84)`
(faceW = 60, faceH = 84, giving cropH = 151, cropW = 113). -/
theorem C8_aspect_witness :
    widthBranch ⟨0, 0, 60, 84⟩ = false ∧ 151 ≤ H_crop ⟨0, 0, 60, 84⟩ ∧
    round2 ((W_crop ⟨0, 0, 60, 84⟩ : ℚ) / (H_crop ⟨0, 0, 60, 84⟩ : ℚ)) = 3 / 4 :=
  ⟨by decide, by decide, C8_aspect_amended ⟨0, 0, 60, 84⟩ (by decide) (by decide)⟩

/-- C10: whenever the computed crop width exceeds the image width the clamp
`max(0, min(x0, img_w - W))` collapses to `0` (the range is inverted), and
symmetrically for the height, so an oversized crop is anchored at the left
and/or top image edge. -/
theorem C10_degenerate_clamp (b : BBox) (img_w img_h : Int) :
    (img_w < W_crop b → (calculate_3_4_crop b img_w img_h).x0 = 0) ∧
    (img_h < H_crop b → (calculate_3_4_crop b img_w img_h).y0 = 0) := by
  constructor
  · intro h
    show x0_c b img_w = 0
    rw [x0_c]
    exact max_eq_left (le_trans (min_le_right _ _) (by omega))
  · intro h
    show y0_c b img_h = 0
    rw [y0_c]
    exact max_eq_left (le_trans (min_le_right _ _) (by omega))

/-- C10 (witness): the box `(0,0,10,10)` yields crop dimensions `13 x 18`,
which overflow a 5x5 image in both directions, and the returned crop is
anchored at `(0,0)`. -/
theorem C10_degenerate_clamp_witness :
    (5 : ℤ) < W_crop ⟨0, 0, 10, 10⟩ ∧ (5 : ℤ) < H_crop ⟨0, 0, 10, 10⟩ ∧
    (calculate_3_4_crop ⟨0, 0, 10, 10⟩ 5 5).x0 = 0 ∧
    (calculate_3_4_crop ⟨0, 0, 10, 10⟩ 5 5).y0 = 0 :=
  ⟨by decide, by decide,
    (C10_degenerate_clamp ⟨0, 0, 10, 10⟩ 5 5).1 (by decide),
    (C10_degenerate_clamp ⟨0, 0, 10, 10⟩ 5 5).2 (by decide)⟩

/-- One `facial_area` dictionary from a DeepFace detection result:
`d["facial_area"]` carries integer `x, y, w, h` (croppass.py lines 48-49). -/
structure FacialArea where
  x : Int
  y : Int
  w : Int
  h : Int
  deriving DecidableEq

/-- One candidate region returned by `DeepFace.extract_faces`: the
`"facial_area"` key may be absent (`none`). -/
structure Candidate where
  facial_area : Option FacialArea
  deriving DecidableEq

/-- Python's `max(detected_faces, key=lambda d: w * h)` (croppass.py lines
45-47): fold keeping the first element, replacing it only on a strictly
larger key, so the first maximal element wins ties. -/
def selectFace : FacialArea → List FacialArea → FacialArea
  | best, [] => best
  | best, c :: rest => selectFace (if best.w * best.h < c.w * c.h then c else best) rest

/-- `get_face_bbox` (croppass.py lines 34-51).  The argument is the outcome
of the `DeepFace.extract_faces` call inside the `try` block: `.error` means
the call raised, which the bare `except` converts to `None`.  The first
guard mirrors line 43 (`not detected_faces or not any("facial_area" in d
...)`).  When some candidate has a `facial_area` but another lacks one, the
`max` key function raises `KeyError`, which the same bare `except` also
converts to `None`: that is the `all`-guard's `else none`.  The `[] => none`
match arm is unreachable (the guards ensure a non-empty list). -/
def get_face_bbox (detected : Except String (List Candidate)) :
    Option (Int × Int × Int × Int) :=
  match detected with
  | .error _ => none
  | .ok detected_faces =>
    if detected_faces.isEmpty
        || !(detected_faces.any fun d => d.facial_area.isSome) then
      none
    else if detected_faces.all fun d => d.facial_area.isSome then
      match detected_faces.filterMap (fun d => d.facial_area) with
      | [] => none
      | a :: rest =>
        let area := selectFace a rest
        some (area.x, area.y, area.x + area.w, area.y + area.h)
    else none

/-- `selectFace` returns the first element of maximal area `w * h`: everything
before it in the list is strictly smaller, everything after it is no
larger. -/
lemma selectFace_first_max (rest : List FacialArea) (a : FacialArea) :
    ∃ pre post,
      a :: rest = pre ++ selectFace a rest :: post ∧
      (∀ x ∈ pre, x.w * x.h < (selectFace a rest).w * (selectFace a rest).h) ∧
      (∀ x ∈ post, x.w * x.h ≤ (selectFace a rest).w * (selectFace a rest).h) := by
  induction rest generalizing a with
  | nil => exact ⟨[], [], rfl, by simp, by simp⟩
  | cons c t ih =>
    by_cases hac : a.w * a.h < c.w * c.h
    · have hsel : selectFace a (c :: t) = selectFace c t := by
        simp [selectFace, hac]
      obtain ⟨pre, post, heq, hpre, hpost⟩ := ih c
      have hcle : c.w * c.h ≤ (selectFace c t).w * (selectFace c t).h := by
        cases pre with
        | nil =>
          simp only [List.nil_append, List.cons.injEq] at heq
          rw [← heq.1]
        | cons p ps =>
          simp only [List.cons_append, List.cons.injEq] at heq
          exact le_of_lt (heq.1 ▸ hpre p (by simp))
      refine ⟨a :: pre, post, ?_, ?_, ?_⟩
      · rw [hsel, List.cons_append, ← heq]
      · intro x hx
        rw [hsel]
        rcases List.mem_cons.mp hx with rfl | hx'
        · exact lt_of_lt_of_le hac hcle
        · exact hpre x hx'
      · intro x hx
        rw [hsel]
        exact hpost x hx
    · have hsel : selectFace a (c :: t) = selectFace a t := by
        simp [selectFace, hac]
      obtain ⟨pre, post, heq, hpre, hpost⟩ := ih a
      cases pre with
      | nil =>
        simp only [List.nil_append, List.cons.injEq] at heq
        refine ⟨[], c :: post, ?_, by simp, ?_⟩
        · rw [hsel, ← heq.1, List.nil_append, ← heq.2]
        · intro x hx
          rw [hsel, ← heq.1]
          rcases List.mem_cons.mp hx with rfl | hx'
          · exact not_lt.mp hac
          · exact (heq.1 ▸ hpost x hx')
      | cons p ps =>
        simp only [List.cons_append, List.cons.injEq] at heq
        refine ⟨a :: c :: ps, post, ?_, ?_, ?_⟩
        · rw [hsel, List.cons_append, List.cons_append, ← heq.2]
        · intro x hx
          rw [hsel]
          have hasel : a.w * a.h < (selectFace a t).w * (selectFace a t).h :=
            heq.1 ▸ hpre p (by simp)
          rcases List.mem_cons.mp hx with rfl | hx'
          · exact hasel
          · rcases List.mem_cons.mp hx' with rfl | hx''
            · exact lt_of_le_of_lt (not_lt.mp hac) hasel
            · exact hpre x (by simp [hx''])
        · intro x hx
          rw [hsel]
          exact hpost x hx

/-- C5 (counterexample): with two candidates, the first carrying
`facial_area (0,0,10,10)` and the second lacking area information, the claim
demands that the second is ignored and the first is selected (bounding box
`(0,0,10,10)`); the code instead lets `max`'s key raise `KeyError`, the bare
`except` returns `None`, and no bounding box is produced. -/
theorem C5_counterexample :
    get_face_bbox (Except.ok [⟨some ⟨0, 0, 10, 10⟩⟩, (⟨none⟩ : Candidate)]) = none ∧
    (⟨some ⟨0, 0, 10, 10⟩⟩ : Candidate).facial_area.isSome = true ∧
    (none : Option (Int × Int × Int × Int)) ≠ some (0, 0, 10, 10) := by
  refine ⟨rfl, rfl, by decide⟩

/-- C5 (amended): when the candidate list is non-empty and *every* candidate
carries area information, the candidate with the largest bounding-box area is
selected, ties broken in favour of the first encountered; but when some
candidate lacks area information the wrapper returns no bounding box at all
(missing-area candidates are not merely ignored). -/
theorem C5_selection_amended (cs : List Candidate) (hne : cs ≠ [])
    (hall : cs.all (fun d => d.facial_area.isSome) = true) :
    ∃ best pre post,
      get_face_bbox (Except.ok cs)
          = some (best.x, best.y, best.x + best.w, best.y + best.h) ∧
      cs.filterMap (fun d => d.facial_area) = pre ++ best :: post ∧
      (∀ x ∈ pre, x.w * x.h < best.w * best.h) ∧
      (∀ x ∈ post, x.w * x.h ≤ best.w * best.h) := by
  obtain ⟨c0, cs', rfl⟩ : ∃ c0 cs', cs = c0 :: cs' := by
    cases cs with
    | nil => exact absurd rfl hne
    | cons c0 cs' => exact ⟨c0, cs', rfl⟩
  have hc0 : c0.facial_area.isSome = true := by
    have := List.all_eq_true.mp hall c0 (by simp)
    simpa using this
  obtain ⟨a0, ha0⟩ := Option.isSome_iff_exists.mp hc0
  have hfm : (c0 :: cs').filterMap (fun d => d.facial_area)
      = a0 :: cs'.filterMap (fun d => d.facial_area) := by
    simp [List.filterMap_cons, ha0]
  obtain ⟨pre, post, heq, hpre, hpost⟩ :=
    selectFace_first_max (cs'.filterMap (fun d => d.facial_area)) a0
  refine ⟨selectFace a0 (cs'.filterMap (fun d => d.facial_area)), pre, post,
    ?_, ?_, hpre, hpost⟩
  · have hguard : ((c0 :: cs').isEmpty
        || !((c0 :: cs').any fun d => d.facial_area.isSome)) = false := by
      simp [List.any_cons, hc0]
    rw [get_face_bbox, hguard]
    simp only [Bool.false_eq_true, if_false, if_pos hall, hfm]
  · rw [hfm, heq]

/-- C5 (witness): the amended selection property on two candidates with areas
25 and 49: the second (larger) is selected, with the first strictly smaller
before it. -/
theorem C5_selection_witness :
    ([⟨some ⟨0, 0, 5, 5⟩⟩, ⟨some ⟨1, 1, 7, 7⟩⟩] : List Candidate) ≠ [] ∧
    ([⟨some ⟨0, 0, 5, 5⟩⟩, ⟨some ⟨1, 1, 7, 7⟩⟩] : List Candidate).all
      (fun d => d.facial_area.isSome) = true ∧
    ∃ best pre post,
      get_face_bbox (Except.ok [⟨some ⟨0, 0, 5, 5⟩⟩, ⟨some ⟨1, 1, 7, 7⟩⟩])
          = some (best.x, best.y, best.x + best.w, best.y + best.h) ∧
      ([⟨some ⟨0, 0, 5, 5⟩⟩, ⟨some ⟨1, 1, 7, 7⟩⟩] : List Candidate).filterMap
          (fun d => d.facial_area) = pre ++ best :: post ∧
      (∀ x ∈ pre, x.w * x.h < best.w * best.h) ∧
      (∀ x ∈ post, x.w * x.h ≤ best.w * best.h) :=
  ⟨by decide, by decide,
    C5_selection_amended [⟨some ⟨0, 0, 5, 5⟩⟩, ⟨some ⟨1, 1, 7, 7⟩⟩]
      (by decide) (by decide)⟩

/-- A decoded image: `img.size` gives `(width, height)` (croppass.py
lines 96, 99). -/
structure Img where
  w : Int
  h : Int

/-- Terminal classification of one file's processing attempt. -/
inductive Outcome where
  | cropped
  | noFaceFound
  | failed (msg : String)
  deriving DecidableEq

/-- One discovered file together with the oracle results of its I/O steps
inside the per-file `try` block (croppass.py lines 95-107): `openImg` is
`Image.open(path).convert("RGB")` (line 96), `detect` is the
`DeepFace.extract_faces` call inside `get_face_bbox` (lines 37-42), `cropOp`
is `img.crop(crop)` (line 100) as a function of the requested crop
rectangle, `mkdirOp` is `target_dir.mkdir(parents=True, exist_ok=True)`
(line 104), and `saveOp` is `final_img.save(...)` (line 107).  An `.error`
value means that step raises; the relative-path computation (lines 102-103)
and extension choice (line 106) are pure and cannot raise. -/
structure FileEnv where
  name : String
  openImg : Except String Img
  detect : Except String (List Candidate)
  cropOp : CropRect → Except String Unit
  mkdirOp : Except String Unit
  saveOp : Except String Unit

/-- Outcome of the body of the per-file `try` block (croppass.py lines
95-112): any exception from decode, crop, directory creation or encode is
caught by `except Exception` and becomes `failed`; a `None` from
`get_face_bbox` (including a detector exception swallowed by its own bare
`except`) becomes `noFaceFound`. -/
def processFile (env : FileEnv) : Outcome :=
  match env.openImg with
  | .error e => .failed e
  | .ok img =>
    match get_face_bbox env.detect with
    | none => .noFaceFound
    | some (bx0, by0, bx1, by1) =>
      match env.cropOp (calculate_3_4_crop ⟨bx0, by0, bx1, by1⟩ img.w img.h) with
      | .error e => .failed e
      | .ok _ =>
        match env.mkdirOp with
        | .error e => .failed e
        | .ok _ =>
          match env.saveOp with
          | .error e => .failed e
          | .ok _ => .cropped

/-- Whether control reaches the `target_dir.mkdir` call for this file: the
image decoded, a face was found, and `img.crop` succeeded. -/
def dirTouched (env : FileEnv) : Bool :=
  match env.openImg with
  | .error _ => false
  | .ok img =>
    match get_face_bbox env.detect with
    | none => false
    | some (bx0, by0, bx1, by1) =>
      match env.cropOp (calculate_3_4_crop ⟨bx0, by0, bx1, by1⟩ img.w img.h) with
      | .error _ => false
      | .ok _ => true

/-- Whether some exception raised during this file's processing escapes to
the per-file `except` handler (croppass.py line 111).  A detector exception
does *not*: it is swallowed inside `get_face_bbox`. -/
def escapesToHandler (env : FileEnv) : Bool :=
  match env.openImg with
  | .error _ => true
  | .ok img =>
    match get_face_bbox env.detect with
    | none => false
    | some (bx0, by0, bx1, by1) =>
      match env.cropOp (calculate_3_4_crop ⟨bx0, by0, bx1, by1⟩ img.w img.h) with
      | .error _ => true
      | .ok _ =>
        match env.mkdirOp with
        | .error _ => true
        | .ok _ =>
          match env.saveOp with
          | .error _ => true
          | .ok _ => false

/-- The log line emitted for one file (croppass.py lines 108, 110, 112). -/
def logLine (name : String) : Outcome → String
  | .cropped => "✅ Success: " ++ name
  | .noFaceFound => "❌ No face: " ++ name
  | .failed e => "⚠️ Error " ++ name ++ ": " ++ e

/-- Observable effects of one `CropWorker.run` invocation: emitted `log`,
`progress` and `finished` Qt signals, plus the filesystem `mkdir` calls. -/
inductive Event where
  | log (msg : String)
  | mkdirCall (dir : String)
  | progress (value : ℕ)
  | finished
  deriving DecidableEq

def Event.isLog : Event → Bool
  | .log _ => true
  | _ => false

def Event.isFinished : Event → Bool
  | .finished => true
  | _ => false

def Event.isMkdir : Event → Bool
  | .mkdirCall _ => true
  | _ => false

def Outcome.isFailed : Outcome → Bool
  | .failed _ => true
  | _ => false

/-- Round-half-to-even of the fraction `A / B` to an integer, on naturals:
the rounding used by IEEE-754 binary64. -/
def rhefrac (A B : ℕ) : ℕ :=
  if 2 * (A % B) < B then A / B
  else if B < 2 * (A % B) then A / B + 1
  else if A / B % 2 = 0 then A / B else A / B + 1

/-- Round-half-to-even of a rational to an integer (proof-level mirror of
`rhefrac`). -/
def rhe (s : ℚ) : ℤ :=
  if s - ⌊s⌋ < 1 / 2 then ⌊s⌋
  else if 1 / 2 < s - ⌊s⌋ then ⌊s⌋ + 1
  else if ⌊s⌋ % 2 = 0 then ⌊s⌋ else ⌊s⌋ + 1

/-- Position of the leading binary digit of `A / B`: the unique `e` with
`2 ^ e ≤ A / B < 2 ^ (e + 1)` (for `A, B ≥ 1`). -/
def qlog2frac (A B : ℕ) : ℤ :=
  if 2 ^ nlog2 A * B ≤ 2 ^ nlog2 B * A then (nlog2 A : ℤ) - nlog2 B
  else (nlog2 A : ℤ) - nlog2 B - 1

/-- Multiply the fraction `A / B` by `2 ^ k`, staying in natural
numerator/denominator form. -/
def scaleUp (A B : ℕ) (k : ℤ) : ℕ × ℕ :=
  if 0 ≤ k then (A * 2 ^ k.toNat, B) else (A, B * 2 ^ (-k).toNat)

/-- Round the positive fraction `A / B` to the nearest binary64 value
(round half to even, 53 significant bits, unbounded exponent — identical to
IEEE-754 binary64 outside the underflow/overflow ranges).  The result is
the pair `(m, e)` representing `m * 2 ^ (e - 52)` with `2^52 ≤ m ≤ 2^53`. -/
def fl64 (A B : ℕ) : ℕ × ℤ :=
  (rhefrac (scaleUp A B (52 - qlog2frac A B)).1 (scaleUp A B (52 - qlog2frac A B)).2,
   qlog2frac A B)

/-- The rational value of a mantissa/exponent pair. -/
def fl64Val (p : ℕ × ℤ) : ℚ := (p.1 : ℚ) * (2 : ℚ) ^ (p.2 - 52)

/-- Truncation toward zero of the non-negative value `m * 2 ^ (e - 52)`,
i.e. Python's `int()` of a non-negative float. -/
def truncPair (m : ℕ) (e : ℤ) : ℕ :=
  if 0 ≤ e - 52 then m * 2 ^ (e - 52).toNat else m / 2 ^ (52 - e).toNat

/-- Second stage of the progress computation: multiply the rounded quotient
by 100 (exact rescaling of the mantissa), round again to binary64, truncate
to an integer. -/
def pyPctAux (y : ℕ × ℤ) : ℕ :=
  truncPair
    (fl64 (scaleUp (100 * y.1) 1 (y.2 - 52)).1 (scaleUp (100 * y.1) 1 (y.2 - 52)).2).1
    (fl64 (scaleUp (100 * y.1) 1 (y.2 - 52)).1 (scaleUp (100 * y.1) 1 (y.2 - 52)).2).2

/-- `int(((completed) / total) * 100)` exactly as CPython computes it
(croppass.py line 114): the true quotient correctly rounded to binary64
(CPython's `int.__truediv__` guarantees the correctly rounded quotient),
the product with the exact double `100` correctly rounded to binary64, then
`int()` truncation.  Bit-exact for every `total` below the binary64
underflow range; e.g. `pyPct 29 100 = 28` (not 29), reproducing the double
rounding of `0.29 * 100`, and verified against CPython on an exhaustive
sweep of `total ≤ 700` plus 20000 random pairs up to `10^9`. -/
def pyPct (completed total : ℕ) : ℕ := pyPctAux (fl64 completed total)

lemma zpow_natCast_two (a : ℕ) : (2 : ℚ) ^ ((a : ℕ) : ℤ) = ((2 ^ a : ℕ) : ℚ) := by
  rw [zpow_natCast]
  push_cast
  ring

lemma qlog2frac_spec (A B : ℕ) (hA : 1 ≤ A) (hB : 1 ≤ B) :
    (2 : ℚ) ^ qlog2frac A B ≤ (A : ℚ) / (B : ℚ) ∧
    (A : ℚ) / (B : ℚ) < (2 : ℚ) ^ (qlog2frac A B + 1) := by
  obtain ⟨hA1, hA2⟩ := nlog2_spec A hA
  obtain ⟨hB1, hB2⟩ := nlog2_spec B hB
  set α := nlog2 A
  set β := nlog2 B
  have hbQ : (0 : ℚ) < (B : ℚ) := by exact_mod_cast hB
  rw [qlog2frac]
  split_ifs with hcond
  · constructor
    · rw [zpow_sub₀ two_ne_zero, zpow_natCast_two, zpow_natCast_two,
        div_le_div_iff (by positivity) hbQ]
      have h2 := hcond
      rw [Nat.mul_comm (2 ^ β) A] at h2
      exact_mod_cast h2
    · rw [show (α : ℤ) - (β : ℤ) + 1 = ((α + 1 : ℕ) : ℤ) - (β : ℤ) by push_cast; ring,
        zpow_sub₀ two_ne_zero, zpow_natCast_two, zpow_natCast_two,
        div_lt_div_iff hbQ (by positivity)]
      have key : (A : ℕ) * 2 ^ β < 2 ^ (α + 1) * B := by
        calc A * 2 ^ β < 2 ^ (α + 1) * 2 ^ β := by
              have h1 : 0 < 2 ^ β := Nat.pos_pow_of_pos β (by omega)
              exact (Nat.mul_lt_mul_right h1).mpr hA2
          _ ≤ 2 ^ (α + 1) * B := Nat.mul_le_mul_left _ hB1
      exact_mod_cast key
  · push_neg at hcond
    constructor
    · rw [show (α : ℤ) - (β : ℤ) - 1 = ((α : ℕ) : ℤ) - ((β + 1 : ℕ) : ℤ) by
        push_cast; ring,
        zpow_sub₀ two_ne_zero, zpow_natCast_two, zpow_natCast_two,
        div_le_div_iff (by positivity) hbQ]
      have key : (2 ^ α : ℕ) * B ≤ A * 2 ^ (β + 1) := by
        calc (2 ^ α : ℕ) * B ≤ A * B := Nat.mul_le_mul_right B hA1
          _ ≤ A * 2 ^ (β + 1) := Nat.mul_le_mul_left A (by omega)
      exact_mod_cast key
    · rw [show (α : ℤ) - (β : ℤ) - 1 + 1 = ((α : ℕ) : ℤ) - (β : ℤ) by ring,
        zpow_sub₀ two_ne_zero, zpow_natCast_two, zpow_natCast_two,
        div_lt_div_iff hbQ (by positivity)]
      have h2 := hcond
      rw [Nat.mul_comm (2 ^ β) A] at h2
      exact_mod_cast h2

lemma floor_natCast_div (A B : ℕ) : ⌊(A : ℚ) / (B : ℚ)⌋ = ((A / B : ℕ) : ℤ) := by
  rw [Rat.floor_natCast_div_natCast]
  exact (Int.ofNat_div _ _).symm

lemma rhefrac_eq (A B : ℕ) (hB : 0 < B) : (rhefrac A B : ℤ) = rhe ((A : ℚ) / (B : ℚ)) := by
  have hBQ : (0 : ℚ) < (B : ℚ) := by exact_mod_cast hB
  have hmodQ : (B : ℚ) * ((A / B : ℕ) : ℚ) + ((A % B : ℕ) : ℚ) = (A : ℚ) := by
    exact_mod_cast Nat.div_add_mod A B
  have hfr : (A : ℚ) / (B : ℚ) - (⌊(A : ℚ) / (B : ℚ)⌋ : ℚ)
      = ((A % B : ℕ) : ℚ) / (B : ℚ) := by
    rw [floor_natCast_div, Int.cast_natCast]
    field_simp
    linarith
  have hcond1 : ((A : ℚ) / B - (⌊(A : ℚ) / B⌋ : ℚ) < 1 / 2) ↔ 2 * (A % B) < B := by
    rw [hfr, div_lt_div_iff hBQ (by norm_num : (0 : ℚ) < 2),
      show ((A % B : ℕ) : ℚ) * 2 = ((2 * (A % B) : ℕ) : ℚ) by push_cast; ring,
      show (1 : ℚ) * (B : ℚ) = ((B : ℕ) : ℚ) by ring, Nat.cast_lt]
  have hcond2 : (1 / 2 < (A : ℚ) / B - (⌊(A : ℚ) / B⌋ : ℚ)) ↔ B < 2 * (A % B) := by
    rw [hfr, div_lt_div_iff (by norm_num : (0 : ℚ) < 2) hBQ,
      show (1 : ℚ) * (B : ℚ) = ((B : ℕ) : ℚ) by ring,
      show ((A % B : ℕ) : ℚ) * 2 = ((2 * (A % B) : ℕ) : ℚ) by push_cast; ring,
      Nat.cast_lt]
  have hcond3 : (⌊(A : ℚ) / B⌋ % 2 = 0) ↔ A / B % 2 = 0 := by
    rw [floor_natCast_div]
    omega
  rw [rhe, rhefrac]
  simp only [hcond1, hcond2, hcond3]
  split_ifs <;> rw [floor_natCast_div] <;> push_cast <;> ring

lemma rhe_eq_or (s : ℚ) : rhe s = ⌊s⌋ ∨ rhe s = ⌊s⌋ + 1 := by
  rw [rhe]
  split_ifs <;> simp

lemma rhe_abs (s : ℚ) : |(rhe s : ℚ) - s| ≤ 1 / 2 := by
  have h0 : (⌊s⌋ : ℚ) ≤ s := Int.floor_le s
  have h1 : s < ⌊s⌋ + 1 := Int.lt_floor_add_one s
  rw [rhe]
  split_ifs with ha hb hc <;> rw [abs_le] <;> constructor <;> push_cast <;> linarith

lemma rhe_mono {s t : ℚ} (h : s ≤ t) : rhe s ≤ rhe t := by
  have hst : ⌊s⌋ ≤ ⌊t⌋ := Int.floor_le_floor h
  rcases lt_or_eq_of_le hst with hlt | heq
  · rcases rhe_eq_or s with hs | hs <;> rcases rhe_eq_or t with ht | ht <;> omega
  · have h0s : (⌊s⌋ : ℚ) ≤ s := Int.floor_le s
    have h0t : (⌊t⌋ : ℚ) ≤ t := Int.floor_le t
    rw [rhe, rhe, ← heq]
    have hsub : s - (⌊s⌋ : ℚ) ≤ t - (⌊s⌋ : ℚ) := by linarith
    rw [heq] at hsub
    rw [← heq] at hsub
    split_ifs <;> first | omega | linarith

lemma scaleUp_val (A B : ℕ) (k : ℤ) (hB : 0 < B) :
    ((scaleUp A B k).1 : ℚ) / ((scaleUp A B k).2 : ℚ)
      = (A : ℚ) / (B : ℚ) * (2 : ℚ) ^ k := by
  have hBQ : (0 : ℚ) < (B : ℚ) := by exact_mod_cast hB
  rw [scaleUp]
  split_ifs with h
  · simp only
    rw [show (2 : ℚ) ^ k = (2 : ℚ) ^ ((k.toNat : ℕ) : ℤ) by rw [Int.toNat_of_nonneg h],
      zpow_natCast_two]
    push_cast
    field_simp
  · simp only
    rw [show (2 : ℚ) ^ k = 1 / (2 : ℚ) ^ (((-k).toNat : ℕ) : ℤ) by
        rw [Int.toNat_of_nonneg (by omega : (0:ℤ) ≤ -k), one_div, ← zpow_neg, neg_neg],
      zpow_natCast_two]
    have hp : (0 : ℚ) < ((2 ^ (-k).toNat : ℕ) : ℚ) := by positivity
    push_cast
    field_simp

lemma scaleUp_pos (A B : ℕ) (k : ℤ) (hA : 1 ≤ A) (hB : 0 < B) :
    1 ≤ (scaleUp A B k).1 ∧ 0 < (scaleUp A B k).2 := by
  rw [scaleUp]
  have h2 : ∀ m : ℕ, 0 < 2 ^ m := fun m => Nat.pos_pow_of_pos m (by omega)
  split_ifs <;> constructor <;> simp only <;>
    first
      | exact hA
      | exact hB
      | exact Nat.one_le_iff_ne_zero.mpr (Nat.mul_ne_zero (by omega) (by
          have := h2 k.toNat; omega))
      | exact Nat.mul_pos hB (h2 _)

lemma fl64_val (A B : ℕ) (hA : 1 ≤ A) (hB : 1 ≤ B) :
    fl64Val (fl64 A B)
      = ((rhe ((A : ℚ) / (B : ℚ) * (2 : ℚ) ^ (52 - qlog2frac A B)) : ℤ) : ℚ)
          * (2 : ℚ) ^ (qlog2frac A B - 52) := by
  obtain ⟨hAs, hBs⟩ := scaleUp_pos A B (52 - qlog2frac A B) hA hB
  rw [fl64Val, fl64]
  simp only
  rw [show ((rhefrac (scaleUp A B (52 - qlog2frac A B)).1
        (scaleUp A B (52 - qlog2frac A B)).2 : ℕ) : ℚ)
      = (((rhefrac (scaleUp A B (52 - qlog2frac A B)).1
        (scaleUp A B (52 - qlog2frac A B)).2 : ℕ) : ℤ) : ℚ) by push_cast; ring,
    rhefrac_eq _ _ hBs, scaleUp_val A B _ (by omega)]

/-- Master specification of the binary64 rounding: the rounded value stays
in the binade of the input and is within half an ulp of it, hence within
relative error `2 ^ (-53)`. -/
lemma fl64_spec (A B : ℕ) (hA : 1 ≤ A) (hB : 1 ≤ B) :
    (2 : ℚ) ^ qlog2frac A B ≤ fl64Val (fl64 A B) ∧
    fl64Val (fl64 A B) ≤ (2 : ℚ) ^ (qlog2frac A B + 1) ∧
    |fl64Val (fl64 A B) - (A : ℚ) / (B : ℚ)|
      ≤ ((A : ℚ) / (B : ℚ)) / 2 ^ 53 := by
  obtain ⟨hq1, hq2⟩ := qlog2frac_spec A B hA hB
  set e := qlog2frac A B with he
  set q : ℚ := (A : ℚ) / (B : ℚ) with hq
  set s : ℚ := q * (2 : ℚ) ^ (52 - e) with hs
  have hqpos : 0 < q := lt_of_lt_of_le (by positivity) hq1
  have hs_lb : (2 : ℚ) ^ (52 : ℤ) ≤ s := by
    rw [hs]
    calc (2 : ℚ) ^ (52 : ℤ) = (2 : ℚ) ^ e * (2 : ℚ) ^ (52 - e) := by
          rw [← zpow_add₀ (two_ne_zero : (2:ℚ) ≠ 0)]
          ring_nf
      _ ≤ q * (2 : ℚ) ^ (52 - e) := by
          have : (0:ℚ) < (2 : ℚ) ^ (52 - e) := by positivity
          exact mul_le_mul_of_nonneg_right hq1 this.le
  have hs_ub : s < (2 : ℚ) ^ (53 : ℤ) := by
    rw [hs]
    calc q * (2 : ℚ) ^ (52 - e) < (2 : ℚ) ^ (e + 1) * (2 : ℚ) ^ (52 - e) := by
          have : (0:ℚ) < (2 : ℚ) ^ (52 - e) := by positivity
          exact mul_lt_mul_of_pos_right hq2 this
      _ = (2 : ℚ) ^ (53 : ℤ) := by
          rw [← zpow_add₀ (two_ne_zero : (2:ℚ) ≠ 0)]
          ring_nf
  have hval := fl64_val A B hA hB
  rw [← hq, ← hs] at hval
  have h52 : ((2 ^ 52 : ℤ) : ℚ) = (2 : ℚ) ^ (52 : ℤ) := by norm_num
  have h53 : ((2 ^ 53 : ℤ) : ℚ) = (2 : ℚ) ^ (53 : ℤ) := by norm_num
  have hfl_lbZ : (2 ^ 52 : ℤ) ≤ rhe s := by
    have h4 : (2 ^ 52 : ℤ) ≤ ⌊s⌋ := by
      rw [Int.le_floor, h52]
      exact hs_lb
    rcases rhe_eq_or s with h | h <;> omega
  have hfl_ubZ : rhe s ≤ (2 ^ 53 : ℤ) := by
    have h4 : ⌊s⌋ < (2 ^ 53 : ℤ) := by
      rw [Int.floor_lt, h53]
      exact hs_ub
    rcases rhe_eq_or s with h | h <;> omega
  have hfl_lb : ((2 : ℚ) ^ (52 : ℤ) : ℚ) ≤ ((rhe s : ℤ) : ℚ) := by
    rw [← h52]
    exact_mod_cast hfl_lbZ
  have hfl_ub : ((rhe s : ℤ) : ℚ) ≤ (2 : ℚ) ^ (53 : ℤ) := by
    rw [← h53]
    exact_mod_cast hfl_ubZ
  have hscale_pos : (0:ℚ) < (2:ℚ) ^ (e - 52) := by positivity
  have hcollapse : (2:ℚ) ^ (52:ℤ) * (2:ℚ) ^ (e - 52) = (2:ℚ) ^ e := by
    rw [← zpow_add₀ (two_ne_zero : (2:ℚ) ≠ 0)]
    ring_nf
  have hcollapse2 : (2:ℚ) ^ (53:ℤ) * (2:ℚ) ^ (e - 52) = (2:ℚ) ^ (e + 1) := by
    rw [← zpow_add₀ (two_ne_zero : (2:ℚ) ≠ 0)]
    ring_nf
  refine ⟨?_, ?_, ?_⟩
  · rw [hval, ← hcollapse]
    exact mul_le_mul_of_nonneg_right hfl_lb hscale_pos.le
  · rw [hval, ← hcollapse2]
    exact mul_le_mul_of_nonneg_right hfl_ub hscale_pos.le
  · have herr : |((rhe s : ℤ) : ℚ) - s| ≤ 1 / 2 := rhe_abs s
    have hqs : q = s * (2:ℚ) ^ (e - 52) := by
      rw [hs, mul_assoc, ← zpow_add₀ (two_ne_zero : (2:ℚ) ≠ 0)]
      ring_nf
    have habs : |fl64Val (fl64 A B) - q|
        = |((rhe s : ℤ) : ℚ) - s| * (2:ℚ) ^ (e - 52) := by
      rw [hval, hqs, ← sub_mul, abs_mul, abs_of_pos hscale_pos]
    rw [habs]
    calc |((rhe s : ℤ) : ℚ) - s| * (2:ℚ) ^ (e - 52)
        ≤ (1/2) * (2:ℚ) ^ (e - 52) := mul_le_mul_of_nonneg_right herr hscale_pos.le
      _ = (2:ℚ) ^ (e - 53) := by
          rw [show (e - 53 : ℤ) = (-1) + (e - 52) by ring,
            zpow_add₀ (two_ne_zero : (2:ℚ) ≠ 0)]
          norm_num
      _ = (2:ℚ) ^ e / 2 ^ 53 := by
          rw [show (e - 53 : ℤ) = e + (-53) by ring,
            zpow_add₀ (two_ne_zero : (2:ℚ) ≠ 0), div_eq_mul_inv]
          congr 1
          rw [← zpow_natCast (2:ℚ) 53, ← zpow_neg]
          norm_num
      _ ≤ q / 2 ^ 53 := by
          exact (div_le_div_right (by positivity)).mpr hq1

lemma fl64_mono (A1 B1 A2 B2 : ℕ) (hA1 : 1 ≤ A1) (hB1 : 1 ≤ B1)
    (hA2 : 1 ≤ A2) (hB2 : 1 ≤ B2)
    (h : (A1 : ℚ) / (B1 : ℚ) ≤ (A2 : ℚ) / (B2 : ℚ)) :
    fl64Val (fl64 A1 B1) ≤ fl64Val (fl64 A2 B2) := by
  obtain ⟨hq11, hq12⟩ := qlog2frac_spec A1 B1 hA1 hB1
  obtain ⟨hq21, hq22⟩ := qlog2frac_spec A2 B2 hA2 hB2
  have he12 : qlog2frac A1 B1 ≤ qlog2frac A2 B2 := by
    by_contra hcon
    push_neg at hcon
    have h1 : (2:ℚ) ^ (qlog2frac A2 B2 + 1) ≤ (2:ℚ) ^ qlog2frac A1 B1 :=
      zpow_le_zpow_right₀ one_le_two (by omega)
    linarith
  rcases lt_or_eq_of_le he12 with hlt | heq
  · obtain ⟨hl1, hu1, _⟩ := fl64_spec A1 B1 hA1 hB1
    obtain ⟨hl2, hu2, _⟩ := fl64_spec A2 B2 hA2 hB2
    calc fl64Val (fl64 A1 B1) ≤ (2:ℚ) ^ (qlog2frac A1 B1 + 1) := hu1
      _ ≤ (2:ℚ) ^ qlog2frac A2 B2 := zpow_le_zpow_right₀ one_le_two (by omega)
      _ ≤ fl64Val (fl64 A2 B2) := hl2
  · rw [fl64_val A1 B1 hA1 hB1, fl64_val A2 B2 hA2 hB2, ← heq]
    have hmul : (A1 : ℚ) / B1 * (2:ℚ) ^ (52 - qlog2frac A1 B1)
        ≤ (A2 : ℚ) / B2 * (2:ℚ) ^ (52 - qlog2frac A1 B1) := by
      have : (0:ℚ) < (2:ℚ) ^ (52 - qlog2frac A1 B1) := by positivity
      exact mul_le_mul_of_nonneg_right h this.le
    have hrhe : rhe ((A1 : ℚ) / B1 * (2:ℚ) ^ (52 - qlog2frac A1 B1))
        ≤ rhe ((A2 : ℚ) / B2 * (2:ℚ) ^ (52 - qlog2frac A1 B1)) := rhe_mono hmul
    have : (0:ℚ) < (2:ℚ) ^ (qlog2frac A1 B1 - 52) := by positivity
    apply mul_le_mul_of_nonneg_right _ this.le
    exact_mod_cast hrhe

lemma truncPair_eq (m : ℕ) (e : ℤ) :
    (truncPair m e : ℤ) = ⌊(m : ℚ) * (2:ℚ) ^ (e - 52)⌋ := by
  rw [truncPair]
  split_ifs with h
  · rw [show (2:ℚ) ^ (e - 52) = (2:ℚ) ^ (((e - 52).toNat : ℕ) : ℤ) by
      rw [Int.toNat_of_nonneg h], zpow_natCast_two,
      show ((m:ℚ)) * ((2 ^ (e - 52).toNat : ℕ) : ℚ) = (((m * 2 ^ (e - 52).toNat : ℕ)) : ℚ) by
        push_cast; ring]
    rw [Int.floor_natCast]
  · rw [show (2:ℚ) ^ (e - 52) = 1 / (2:ℚ) ^ (((52 - e).toNat : ℕ) : ℤ) by
      rw [Int.toNat_of_nonneg (by omega : (0:ℤ) ≤ 52 - e), one_div, ← zpow_neg]
      congr 1
      omega,
      zpow_natCast_two, mul_one_div, floor_natCast_div]

lemma fl64_m_pos (A B : ℕ) (hA : 1 ≤ A) (hB : 1 ≤ B) : 1 ≤ (fl64 A B).1 := by
  by_contra hm
  have hm0 : (fl64 A B).1 = 0 := by omega
  obtain ⟨hl, _, _⟩ := fl64_spec A B hA hB
  rw [fl64Val, hm0] at hl
  simp at hl
  have : (0:ℚ) < (2:ℚ) ^ qlog2frac A B := by positivity
  linarith

lemma fl64_self (n : ℕ) (hn : 0 < n) : fl64 n n = (2 ^ 52, 0) := by
  have he : qlog2frac n n = 0 := by
    rw [qlog2frac, if_pos le_rfl]
    omega
  have hsc : scaleUp n n (52 - (0:ℤ)) = (n * 2 ^ 52, n) := by
    rw [scaleUp, if_pos (by omega : (0:ℤ) ≤ 52 - 0)]
    have h52 : ((52 : ℤ) - 0).toNat = 52 := by decide
    rw [h52]
  rw [fl64, he, hsc]
  have hdiv : n * 2 ^ 52 / n = 2 ^ 52 := Nat.mul_div_cancel_left _ hn
  have hmod : n * 2 ^ 52 % n = 0 := Nat.mul_mod_right n _
  rw [rhefrac]
  simp only [hmod, hdiv]
  rw [if_pos (by omega)]

lemma pyPct_self (n : ℕ) (hn : 0 < n) : pyPct n n = 100 := by
  rw [pyPct, fl64_self n hn]
  decide

lemma pyPct_le_int (c n : ℕ) (hc : 1 ≤ c) (hn : 1 ≤ n) :
    (pyPct c n : ℤ) = ⌊fl64Val (fl64 (scaleUp (100 * (fl64 c n).1) 1
        ((fl64 c n).2 - 52)).1 (scaleUp (100 * (fl64 c n).1) 1
        ((fl64 c n).2 - 52)).2)⌋ := by
  rw [pyPct, pyPctAux, truncPair_eq, fl64Val]

lemma pyPct_mono (c1 c2 n : ℕ) (hc1 : 1 ≤ c1) (h12 : c1 ≤ c2) (hn : 1 ≤ n) :
    pyPct c1 n ≤ pyPct c2 n := by
  have hc2 : 1 ≤ c2 := le_trans hc1 h12
  have hnQ : (0:ℚ) < (n:ℚ) := by exact_mod_cast hn
  have hqq : (c1:ℚ)/(n:ℚ) ≤ (c2:ℚ)/(n:ℚ) := by
    apply (div_le_div_right hnQ).mpr
    exact_mod_cast h12
  have hy := fl64_mono c1 n c2 n hc1 hn hc2 hn hqq
  have hm1 := fl64_m_pos c1 n hc1 hn
  have hm2 := fl64_m_pos c2 n hc2 hn
  obtain ⟨hP11, hP12⟩ := scaleUp_pos (100 * (fl64 c1 n).1) 1 ((fl64 c1 n).2 - 52)
    (by omega) (by omega)
  obtain ⟨hP21, hP22⟩ := scaleUp_pos (100 * (fl64 c2 n).1) 1 ((fl64 c2 n).2 - 52)
    (by omega) (by omega)
  have hPv1 : ((scaleUp (100 * (fl64 c1 n).1) 1 ((fl64 c1 n).2 - 52)).1 : ℚ)
      / ((scaleUp (100 * (fl64 c1 n).1) 1 ((fl64 c1 n).2 - 52)).2 : ℚ)
      = 100 * fl64Val (fl64 c1 n) := by
    rw [scaleUp_val _ _ _ (by omega), fl64Val]
    push_cast
    ring
  have hPv2 : ((scaleUp (100 * (fl64 c2 n).1) 1 ((fl64 c2 n).2 - 52)).1 : ℚ)
      / ((scaleUp (100 * (fl64 c2 n).1) 1 ((fl64 c2 n).2 - 52)).2 : ℚ)
      = 100 * fl64Val (fl64 c2 n) := by
    rw [scaleUp_val _ _ _ (by omega), fl64Val]
    push_cast
    ring
  have hz := fl64_mono _ _ _ _ hP11 hP12 hP21 hP22 (by rw [hPv1, hPv2]; linarith)
  have h1 := pyPct_le_int c1 n hc1 hn
  have h2 := pyPct_le_int c2 n hc2 hn
  have hZ : (pyPct c1 n : ℤ) ≤ (pyPct c2 n : ℤ) := by
    rw [h1, h2]
    exact Int.floor_le_floor hz
  exact_mod_cast hZ

lemma pyPct_le_100 (c n : ℕ) (hc : 1 ≤ c) (hcn : c ≤ n) : pyPct c n ≤ 100 := by
  have hn : 1 ≤ n := le_trans hc hcn
  calc pyPct c n ≤ pyPct n n := pyPct_mono c n n hc hcn hn
    _ = 100 := pyPct_self n hn

set_option maxHeartbeats 1600000 in
/-- For batches of at most `2 ^ 40` files the float percentage is the exact
truncated percentage or one below it (one below exactly when the two double
roundings jointly cross an integer, e.g. `29 / 100`). -/
lemma pyPct_within (c n : ℕ) (hc : 1 ≤ c) (hcn : c ≤ n) (hn40 : n ≤ 2 ^ 40) :
    ⌊(c : ℚ) / (n : ℚ) * 100⌋ - 1 ≤ (pyPct c n : ℤ) ∧
    (pyPct c n : ℤ) ≤ ⌊(c : ℚ) / (n : ℚ) * 100⌋ := by
  have hn : 1 ≤ n := le_trans hc hcn
  have hnQ : (0:ℚ) < (n:ℚ) := by exact_mod_cast hn
  have hq : (0:ℚ) < (c:ℚ)/(n:ℚ) := by positivity
  obtain ⟨hy_lb, hy_ub, hy_err⟩ := fl64_spec c n hc hn
  have hm1 : 1 ≤ (fl64 c n).1 := fl64_m_pos c n hc hn
  obtain ⟨hP1, hP2⟩ := scaleUp_pos (100 * (fl64 c n).1) 1 ((fl64 c n).2 - 52)
    (by omega) (by omega)
  have hPval : ((scaleUp (100 * (fl64 c n).1) 1 ((fl64 c n).2 - 52)).1 : ℚ)
      / ((scaleUp (100 * (fl64 c n).1) 1 ((fl64 c n).2 - 52)).2 : ℚ)
      = 100 * fl64Val (fl64 c n) := by
    rw [scaleUp_val _ _ _ (by omega), fl64Val]
    push_cast
    ring
  obtain ⟨hz_lb, hz_ub, hz_err⟩ := fl64_spec _ _ hP1 hP2
  rw [hPval] at hz_err
  have hfloorP := pyPct_le_int c n hc hn
  set yv := fl64Val (fl64 c n) with hyv
  set zv := fl64Val (fl64 (scaleUp (100 * (fl64 c n).1) 1 ((fl64 c n).2 - 52)).1
    (scaleUp (100 * (fl64 c n).1) 1 ((fl64 c n).2 - 52)).2) with hzv
  set q : ℚ := (c:ℚ)/(n:ℚ) with hqd
  set t : ℚ := q * 100 with htd
  clear_value yv zv q t
  have hyv_pos : 0 < yv := lt_of_lt_of_le (by positivity) hy_lb
  have ht100 : t ≤ 100 := by
    have hq1 : q ≤ 1 := by
      rw [hqd, div_le_one hnQ]
      exact_mod_cast hcn
    rw [htd]
    linarith
  have htpos : 0 < t := by rw [htd]; positivity
  set ε : ℚ := 1 / 2 ^ 53 with hε
  clear_value ε
  have hεpos : (0:ℚ) < ε := by rw [hε]; positivity
  have he1 : yv ≤ q + q * ε := by
    have := (abs_le.mp hy_err).2
    rw [hε]
    nlinarith
  have he2 : q - q * ε ≤ yv := by
    have := (abs_le.mp hy_err).1
    rw [hε]
    nlinarith
  have he3 : zv ≤ 100 * yv + (100 * yv) * ε := by
    have := (abs_le.mp hz_err).2
    rw [hε]
    nlinarith
  have he4 : 100 * yv - (100 * yv) * ε ≤ zv := by
    have := (abs_le.mp hz_err).1
    rw [hε]
    nlinarith
  have hyε : yv * ε ≤ (q + q * ε) * ε := mul_le_mul_of_nonneg_right he1 hεpos.le
  have hεsq : ε * ε ≤ ε := by
    rw [hε]
    norm_num
  have hzub : zv ≤ t + 300 * ε := by
    have h1 : zv ≤ 100 * (q + q * ε) + 100 * ((q + q * ε) * ε) := by nlinarith
    have h2 : q * (ε * ε) ≤ q * ε := mul_le_mul_of_nonneg_left hεsq hq.le
    have h3 : t * ε ≤ 100 * ε := mul_le_mul_of_nonneg_right ht100 hεpos.le
    rw [htd] at h3 ⊢
    nlinarith
  have hzlb : t - 300 * ε ≤ zv := by
    have h1 : 100 * (q - q * ε) - 100 * ((q + q * ε) * ε) ≤ zv := by nlinarith
    have h2 : q * (ε * ε) ≤ q * ε := mul_le_mul_of_nonneg_left hεsq hq.le
    have h3 : t * ε ≤ 100 * ε := mul_le_mul_of_nonneg_right ht100 hεpos.le
    rw [htd] at h3 ⊢
    nlinarith
  clear hz_lb hz_ub hy_lb hy_ub hy_err hz_err hPval hyε he1 he2 he3 he4 hεsq
  clear hm1 hP1 hP2 hyv hzv hyv_pos
  have hteq : t = ((100 * c : ℕ) : ℚ) / ((n : ℕ) : ℚ) := by
    rw [htd, hqd]
    push_cast
    ring
  have hfloor_t : ⌊t⌋ = ((100 * c / n : ℕ) : ℤ) := by
    rw [hteq, floor_natCast_div]
  have hmodn : (100 * c) % n ≤ n - 1 := by
    have := Nat.mod_lt (100 * c) (by omega : 0 < n)
    omega
  have hfr_t : t - (⌊t⌋ : ℚ) ≤ 1 - 1 / (n : ℚ) := by
    have hmodQ : (n : ℚ) * ((100 * c / n : ℕ) : ℚ) + (((100 * c) % n : ℕ) : ℚ)
        = ((100 * c : ℕ) : ℚ) := by
      exact_mod_cast Nat.div_add_mod (100 * c) n
    have hmQ : (((100 * c) % n : ℕ) : ℚ) ≤ (n : ℚ) - 1 := by
      have h1 : ((100 * c) % n : ℕ) ≤ (n - 1 : ℕ) := hmodn
      have h2 : (((100 * c) % n : ℕ) : ℚ) ≤ ((n - 1 : ℕ) : ℚ) := by exact_mod_cast h1
      have h3 : ((n - 1 : ℕ) : ℚ) = (n : ℚ) - 1 := by
        have h4 : (1:ℕ) ≤ n := hn
        push_cast [h4]
        ring
      linarith
    rw [hfloor_t, hteq, Int.cast_natCast]
    rw [div_sub' _ _ _ (ne_of_gt hnQ), div_le_iff hnQ]
    have hexp : (1 - 1 / (n:ℚ)) * (n:ℚ) = (n:ℚ) - 1 := by
      field_simp
    rw [hexp]
    linarith
  have h1n : 1 / (2:ℚ) ^ 40 ≤ 1 / (n : ℚ) := by
    apply one_div_le_one_div_of_le hnQ
    exact_mod_cast hn40
  constructor
  · rw [hfloorP]
    apply Int.le_floor.mpr
    have hfl : (⌊t⌋ : ℚ) ≤ t := Int.floor_le t
    have h300 : (300:ℚ) * ε ≤ 1 := by
      rw [hε]
      norm_num
    push_cast
    linarith
  · rw [hfloorP]
    have hlt : zv < (⌊t⌋ : ℚ) + 1 := by
      have hnum : (300:ℚ) * ε < 1 / 2 ^ 40 := by
        rw [hε]
        norm_num
      have c2 : t + 300 * ε < t + 1 / 2 ^ 40 := by linarith
      have c3 : t + 1 / (2:ℚ) ^ 40 ≤ t + 1 / (n:ℚ) := by linarith
      have c4 : t + 1 / (n:ℚ) ≤ (⌊t⌋ : ℚ) + 1 := by linarith
      linarith
    have h2 : ⌊zv⌋ < ⌊t⌋ + 1 := by
      apply Int.floor_lt.mpr
      push_cast
      linarith
    omega

/-- Events of the loop body for file number `i` (0-based) of `n`
(croppass.py lines 94-114): the optional `mkdir`, then one log line, then
`progress.emit(int(((i + 1) / len(files)) * 100))`.  The progress value is
`pyPct (i + 1) n`, the bit-exact model of the double-precision computation
(division correctly rounded to binary64, multiplication by 100 correctly
rounded to binary64, truncation by `int()`), including the
double-rounding dips such as `pyPct 29 100 = 28`. -/
def fileChunk (n i : ℕ) (env : FileEnv) : List Event :=
  (if dirTouched env then [Event.mkdirCall env.name] else [])
    ++ [Event.log (logLine env.name (processFile env)),
        Event.progress (pyPct (i + 1) n)]

/-- The `for i, path in enumerate(files)` loop (croppass.py lines 94-114). -/
def runFiles (n : ℕ) : ℕ → List FileEnv → List Event
  | _, [] => []
  | i, env :: rest => fileChunk n i env ++ runFiles n (i + 1) rest

/-- `CropWorker.run` (croppass.py lines 87-116) applied to the list of
eligible files discovered by the `rglob` scan (line 88; the scan itself is
filesystem I/O and is modelled by the input list): the empty-list early
return (lines 89-92), the per-file loop, and the final `finished` signal
(line 116). -/
def CropWorker.run (files : List FileEnv) : List Event :=
  if files.isEmpty then
    [Event.log "No supported images found.", Event.finished]
  else
    runFiles files.length 0 files ++ [Event.finished]

/-- The sequence of values sent to the `progress` signal, in emission
order. -/
def progressValues (es : List Event) : List ℕ :=
  es.filterMap fun e =>
    match e with
    | .progress v => some v
    | _ => none

/-- C6: an exception raised inside the `DeepFace.extract_faces` invocation
is caught by `get_face_bbox`'s bare `except`, which returns `None`, and the
worker then logs the file as `NoFaceFound` — never as `Failed`. -/
theorem C6_detector_exception (env : FileEnv) (img : Img) (msg : String)
    (hopen : env.openImg = Except.ok img) (hdet : env.detect = Except.error msg) :
    get_face_bbox env.detect = none ∧ processFile env = Outcome.noFaceFound := by
  obtain ⟨name, o, d, c, m, s⟩ := env
  simp only at hopen hdet
  subst hopen hdet
  exact ⟨rfl, rfl⟩

/-- C6 (witness): a concrete file whose detector invocation raises is
classified `noFaceFound`. -/
theorem C6_detector_exception_witness :
    (⟨"a.png", Except.ok ⟨64, 64⟩, Except.error "detector crash",
        fun _ => Except.ok (), Except.ok (), Except.ok ()⟩ : FileEnv).openImg
      = Except.ok ⟨64, 64⟩ ∧
    (⟨"a.png", Except.ok ⟨64, 64⟩, Except.error "detector crash",
        fun _ => Except.ok (), Except.ok (), Except.ok ()⟩ : FileEnv).detect
      = Except.error "detector crash" ∧
    (get_face_bbox (⟨"a.png", Except.ok ⟨64, 64⟩, Except.error "detector crash",
        fun _ => Except.ok (), Except.ok (), Except.ok ()⟩ : FileEnv).detect
        = none ∧
      processFile (⟨"a.png", Except.ok ⟨64, 64⟩, Except.error "detector crash",
        fun _ => Except.ok (), Except.ok (), Except.ok ()⟩ : FileEnv)
        = Outcome.noFaceFound) :=
  ⟨rfl, rfl, C6_detector_exception _ ⟨64, 64⟩ "detector crash" rfl rfl⟩

/-- C9: on an empty eligible-file list, `run` emits exactly one informational
log event followed immediately by `finished`, with no `mkdir` call (no
output directory is created) and nothing else. -/
theorem C9_empty_batch :
    CropWorker.run [] = [Event.log "No supported images found.", Event.finished] ∧
    (CropWorker.run []).countP Event.isLog = 1 ∧
    (CropWorker.run []).countP Event.isMkdir = 0 ∧
    (CropWorker.run []).getLast? = some Event.finished :=
  ⟨rfl, rfl, rfl, rfl⟩

/-- Each loop iteration contributes exactly one log event. -/
lemma countP_isLog_runFiles (n : ℕ) (l : List FileEnv) (i : ℕ) :
    (runFiles n i l).countP Event.isLog = l.length := by
  induction l generalizing i with
  | nil => rfl
  | cons env rest ih =>
    rw [runFiles, List.countP_append, ih]
    cases hd : dirTouched env <;>
      simp [fileChunk, hd, List.countP_cons, Event.isLog] <;> omega

/-- The loop itself emits no `finished` event. -/
lemma countP_isFinished_runFiles (n : ℕ) (l : List FileEnv) (i : ℕ) :
    (runFiles n i l).countP Event.isFinished = 0 := by
  induction l generalizing i with
  | nil => rfl
  | cons env rest ih =>
    rw [runFiles, List.countP_append, ih]
    cases hd : dirTouched env <;>
      simp [fileChunk, hd, List.countP_cons, Event.isFinished]

/-- Counting the complement of a Boolean predicate. -/
lemma countP_not_eq (p : FileEnv → Bool) (l : List FileEnv) :
    l.countP (fun a => !p a) = l.length - l.countP p := by
  induction l with
  | nil => rfl
  | cons a t ih =>
    have hle := List.countP_le_length p (l := t)
    cases h : p a <;> simp [List.countP_cons, h, ih] <;> omega

/-- A file's outcome is `failed` exactly when an exception escapes to the
per-file handler. -/
lemma processFile_failed_iff (env : FileEnv) :
    Outcome.isFailed (processFile env) = escapesToHandler env := by
  obtain ⟨name, o, d, c, m, s⟩ := env
  cases o with
  | error e => rfl
  | ok img =>
    cases hd : get_face_bbox d with
    | none => simp [processFile, escapesToHandler, hd, Outcome.isFailed]
    | some bb =>
      obtain ⟨bx0, by0, bx1, by1⟩ := bb
      cases hc : c (calculate_3_4_crop ⟨bx0, by0, bx1, by1⟩ img.w img.h) <;>
        cases m <;> cases s <;>
          simp [processFile, escapesToHandler, hd, hc, Outcome.isFailed]

/-- An outcome that is not `failed` is `cropped` or `noFaceFound`. -/
lemma outcome_not_failed (o : Outcome) (h : Outcome.isFailed o = false) :
    o = Outcome.cropped ∨ o = Outcome.noFaceFound := by
  cases o with
  | cropped => exact Or.inl rfl
  | noFaceFound => exact Or.inr rfl
  | failed e => exact absurd h (by simp [Outcome.isFailed])

/-- A non-empty file list never takes the early-return branch. -/
lemma run_of_ne_nil (files : List FileEnv) (hne : files ≠ []) :
    CropWorker.run files = runFiles files.length 0 files ++ [Event.finished] := by
  rw [CropWorker.run, if_neg]
  cases files with
  | nil => exact absurd rfl hne
  | cons a l => simp

/-- C1 (counterexample): a file whose *detector invocation* raises does
"raise an exception during per-file processing (detection)", yet its outcome
is `NoFaceFound`, not `Failed` as the claim demands: in a one-file batch
with one detector exception the claim predicts one `Failed` outcome, but the
run logs `No face` and no failure. -/
theorem C1_counterexample :
    processFile (⟨"a.png", Except.ok ⟨100, 100⟩, Except.error "detector crash",
        fun _ => Except.ok (), Except.ok (), Except.ok ()⟩ : FileEnv)
      = Outcome.noFaceFound ∧
    Outcome.isFailed (processFile
        (⟨"a.png", Except.ok ⟨100, 100⟩, Except.error "detector crash",
          fun _ => Except.ok (), Except.ok (), Except.ok ()⟩ : FileEnv)) = false ∧
    CropWorker.run [⟨"a.png", Except.ok ⟨100, 100⟩, Except.error "detector crash",
        fun _ => Except.ok (), Except.ok (), Except.ok ()⟩]
      = [Event.log "❌ No face: a.png", Event.progress 100, Event.finished] :=
  ⟨rfl, rfl, rfl⟩

/-- C1 (amended): in every non-empty batch of N eligible files in which M
files raise an exception that escapes to the per-file handler (decode,
cropping, directory creation, or encode — but *not* an exception inside the
detector invocation, which is converted to `NoFaceFound`), the run emits
exactly N log events and exactly one `finished` event (emitted last), the
escaping files get outcome `Failed`, the other N−M files get outcome
`Cropped` or `NoFaceFound`, and the batch is never aborted by a single
file's failure. -/
theorem C1_batch_resilience_amended (files : List FileEnv) (hne : files ≠ []) :
    (CropWorker.run files).countP Event.isLog = files.length ∧
    (CropWorker.run files).countP Event.isFinished = 1 ∧
    (CropWorker.run files).getLast? = some Event.finished ∧
    files.countP (fun f => Outcome.isFailed (processFile f))
      = files.countP escapesToHandler ∧
    files.countP (fun f => !Outcome.isFailed (processFile f))
      = files.length - files.countP escapesToHandler ∧
    (∀ f ∈ files, Outcome.isFailed (processFile f) = false →
      processFile f = Outcome.cropped ∨ processFile f = Outcome.noFaceFound) := by
  have hcnt : files.countP (fun f => Outcome.isFailed (processFile f))
      = files.countP escapesToHandler :=
    List.countP_congr fun f _ => (processFile_failed_iff f) ▸ Iff.rfl
  refine ⟨?_, ?_, ?_, hcnt, ?_, ?_⟩
  · rw [run_of_ne_nil files hne, List.countP_append, countP_isLog_runFiles]
    rfl
  · rw [run_of_ne_nil files hne, List.countP_append, countP_isFinished_runFiles]
    rfl
  · rw [run_of_ne_nil files hne, List.getLast?_concat]
  · rw [countP_not_eq, hcnt]
  · exact fun f _ hf => outcome_not_failed _ hf

/-- C1 (witness): a two-file batch, one decode failure and one success:
two log events, one final `finished`, one `Failed`, one non-failed
outcome. -/
theorem C1_batch_resilience_witness :
    ([⟨"a.png", Except.error "io error", Except.ok [],
        fun _ => Except.ok (), Except.ok (), Except.ok ()⟩,
      ⟨"b.png", Except.ok ⟨50, 50⟩, Except.ok [⟨some ⟨10, 10, 20, 20⟩⟩],
        fun _ => Except.ok (), Except.ok (), Except.ok ()⟩] : List FileEnv) ≠ [] ∧
    ((CropWorker.run [⟨"a.png", Except.error "io error", Except.ok [],
          fun _ => Except.ok (), Except.ok (), Except.ok ()⟩,
        ⟨"b.png", Except.ok ⟨50, 50⟩, Except.ok [⟨some ⟨10, 10, 20, 20⟩⟩],
          fun _ => Except.ok (), Except.ok (), Except.ok ()⟩]).countP Event.isLog
        = 2 ∧
      (CropWorker.run [⟨"a.png", Except.error "io error", Except.ok [],
          fun _ => Except.ok (), Except.ok (), Except.ok ()⟩,
        ⟨"b.png", Except.ok ⟨50, 50⟩, Except.ok [⟨some ⟨10, 10, 20, 20⟩⟩],
          fun _ => Except.ok (), Except.ok (), Except.ok ()⟩]).countP Event.isFinished
        = 1 ∧
      (CropWorker.run [⟨"a.png", Except.error "io error", Except.ok [],
          fun _ => Except.ok (), Except.ok (), Except.ok ()⟩,
        ⟨"b.png", Except.ok ⟨50, 50⟩, Except.ok [⟨some ⟨10, 10, 20, 20⟩⟩],
          fun _ => Except.ok (), Except.ok (), Except.ok ()⟩]).getLast?
        = some Event.finished ∧
      ([⟨"a.png", Except.error "io error", Except.ok [],
          fun _ => Except.ok (), Except.ok (), Except.ok ()⟩,
        ⟨"b.png", Except.ok ⟨50, 50⟩, Except.ok [⟨some ⟨10, 10, 20, 20⟩⟩],
          fun _ => Except.ok (), Except.ok (), Except.ok ()⟩] : List FileEnv).countP
          (fun f => Outcome.isFailed (processFile f))
        = ([⟨"a.png", Except.error "io error", Except.ok [],
            fun _ => Except.ok (), Except.ok (), Except.ok ()⟩,
          ⟨"b.png", Except.ok ⟨50, 50⟩, Except.ok [⟨some ⟨10, 10, 20, 20⟩⟩],
            fun _ => Except.ok (), Except.ok (), Except.ok ()⟩] : List FileEnv).countP
            escapesToHandler ∧
      ([⟨"a.png", Except.error "io error", Except.ok [],
          fun _ => Except.ok (), Except.ok (), Except.ok ()⟩,
        ⟨"b.png", Except.ok ⟨50, 50⟩, Except.ok [⟨some ⟨10, 10, 20, 20⟩⟩],
          fun _ => Except.ok (), Except.ok (), Except.ok ()⟩] : List FileEnv).countP
          (fun f => !Outcome.isFailed (processFile f))
        = 2 - ([⟨"a.png", Except.error "io error", Except.ok [],
            fun _ => Except.ok (), Except.ok (), Except.ok ()⟩,
          ⟨"b.png", Except.ok ⟨50, 50⟩, Except.ok [⟨some ⟨10, 10, 20, 20⟩⟩],
            fun _ => Except.ok (), Except.ok (), Except.ok ()⟩] : List FileEnv).countP
            escapesToHandler ∧
      (∀ f ∈ ([⟨"a.png", Except.error "io error", Except.ok [],
            fun _ => Except.ok (), Except.ok (), Except.ok ()⟩,
          ⟨"b.png", Except.ok ⟨50, 50⟩, Except.ok [⟨some ⟨10, 10, 20, 20⟩⟩],
            fun _ => Except.ok (), Except.ok (), Except.ok ()⟩] : List FileEnv),
        Outcome.isFailed (processFile f) = false →
          processFile f = Outcome.cropped ∨ processFile f = Outcome.noFaceFound)) :=
  ⟨List.cons_ne_nil _ _, C1_batch_resilience_amended _ (List.cons_ne_nil _ _)⟩

/-- `progressValues` distributes over event-list concatenation. -/
lemma progressValues_append (a b : List Event) :
    progressValues (a ++ b) = progressValues a ++ progressValues b :=
  List.filterMap_append a b _

/-- Closed form for the progress values of the loop. -/
lemma progressValues_runFiles (n : ℕ) (l : List FileEnv) (i : ℕ) :
    progressValues (runFiles n i l)
      = (List.range l.length).map (fun k => pyPct (i + k + 1) n) := by
  induction l generalizing i with
  | nil => rfl
  | cons env rest ih =>
    rw [runFiles, progressValues_append, ih]
    have hc : progressValues (fileChunk n i env) = [pyPct (i + 1) n] := by
      cases hd : dirTouched env <;> simp [fileChunk, hd, progressValues]
    have hfun : (fun k => pyPct (i + 1 + k + 1) n)
        = ((fun k => pyPct (i + k + 1) n) ∘ Nat.succ) := by
      funext k
      simp only [Function.comp_apply]
      have harg : i + 1 + k + 1 = i + k.succ + 1 := by omega
      rw [harg]
    rw [hc, List.length_cons, List.range_succ_eq_map, List.map_cons, List.map_map,
      ← hfun]
    simp

/-- Closed form for the progress values of one whole run. -/
lemma progressValues_run (files : List FileEnv) (hne : files ≠ []) :
    progressValues (CropWorker.run files)
      = (List.range files.length).map (fun k => pyPct (k + 1) files.length) := by
  rw [run_of_ne_nil files hne, progressValues_append, progressValues_runFiles]
  simp [progressValues]

/-- C4 (counterexample): with three files the second progress value emitted
is `int((2/3)*100) = 66`, while the claimed `round(2/3*100)` is `67`: the
code truncates the percentage rather than rounding it. -/
theorem C4_counterexample :
    progressValues (CropWorker.run
        [⟨"a.png", Except.error "boom", Except.ok [],
            fun _ => Except.ok (), Except.ok (), Except.ok ()⟩,
          ⟨"b.png", Except.error "boom", Except.ok [],
            fun _ => Except.ok (), Except.ok (), Except.ok ()⟩,
          ⟨"c.png", Except.error "boom", Except.ok [],
            fun _ => Except.ok (), Except.ok (), Except.ok ()⟩])
      = [33, 66, 100] ∧
    round (((2 : ℚ) / 3) * 100) = 67 ∧ (66 : ℕ) ≠ 67 := by
  refine ⟨by decide, ?_, by decide⟩
  rw [round_eq]
  have h2 : ((2 : ℚ) / 3) * 100 + 1 / 2 = ((403 : ℤ) : ℚ) / ((6 : ℕ) : ℚ) := by
    norm_num
  rw [h2, Rat.floor_intCast_div_natCast]
  decide

/-- C4 (amended): in every run over a non-empty file list, the sequence of
progress values consists of one value per file, the k-th (0-based) being
`pyPct (k + 1) totalCount` — the truncation by `int()` of the
double-precision product `((k + 1) / totalCount) * 100` — with `totalCount`
fixed at the initial listing size; the sequence is monotonically
non-decreasing, stays within `[0, 100]`, ends at exactly 100, and (for any
batch of at most `2 ^ 40` files) each value equals the exact truncated
percentage `⌊(k + 1) / totalCount * 100⌋` or falls one below it (one below
exactly when the two float roundings jointly cross an integer, e.g. file 29
of 100 reports 28). -/
theorem C4_progress_amended (files : List FileEnv) (hne : files ≠ []) :
    (progressValues (CropWorker.run files)).length = files.length ∧
    (∀ k (hk : k < (progressValues (CropWorker.run files)).length),
      (progressValues (CropWorker.run files))[k] = pyPct (k + 1) files.length) ∧
    (∀ i j (hi : i < (progressValues (CropWorker.run files)).length)
      (hj : j < (progressValues (CropWorker.run files)).length), i ≤ j →
      (progressValues (CropWorker.run files))[i]
        ≤ (progressValues (CropWorker.run files))[j]) ∧
    (∀ v ∈ progressValues (CropWorker.run files), v ≤ 100) ∧
    (progressValues (CropWorker.run files)).getLast? = some 100 ∧
    (files.length ≤ 2 ^ 40 →
      ∀ k (hk : k < (progressValues (CropWorker.run files)).length),
        ⌊((k : ℚ) + 1) / (files.length : ℚ) * 100⌋ - 1
            ≤ ((progressValues (CropWorker.run files))[k] : ℤ) ∧
          ((progressValues (CropWorker.run files))[k] : ℤ)
            ≤ ⌊((k : ℚ) + 1) / (files.length : ℚ) * 100⌋) := by
  have hn : 0 < files.length := List.length_pos.mpr hne
  have hps := progressValues_run files hne
  have hlen : (progressValues (CropWorker.run files)).length = files.length := by
    rw [hps]
    simp
  refine ⟨hlen, ?_, ?_, ?_, ?_, ?_⟩
  · intro k hk
    simp only [hps, List.getElem_map, List.getElem_range]
  · intro i j hi hj hij
    simp only [hps, List.getElem_map, List.getElem_range]
    exact pyPct_mono (i + 1) (j + 1) files.length (by omega) (by omega) (by omega)
  · intro v hv
    rw [hps] at hv
    simp only [List.mem_map, List.mem_range] at hv
    obtain ⟨k, hk, rfl⟩ := hv
    exact pyPct_le_100 (k + 1) files.length (by omega) (by omega)
  · rw [hps]
    obtain ⟨m, hm⟩ := Nat.exists_eq_succ_of_ne_zero (Nat.pos_iff_ne_zero.mp hn)
    rw [hm, List.range_succ, List.map_append]
    simp only [List.map_cons, List.map_nil]
    rw [List.getLast?_concat]
    exact congrArg some (pyPct_self m.succ (Nat.succ_pos m))
  · intro h40 k hk
    have hk2 : k < files.length := by rw [← hlen]; exact hk
    simp only [hps, List.getElem_map, List.getElem_range]
    have hcast : ((k : ℚ) + 1) / (files.length : ℚ) * 100
        = (((k + 1 : ℕ)) : ℚ) / (files.length : ℚ) * 100 := by
      push_cast
      ring
    rw [hcast]
    exact pyPct_within (k + 1) files.length (by omega) (by omega) h40

/-- C4 (witness): the amended progress property on a concrete two-file
batch, whose emitted values are `[50, 100]`. -/
theorem C4_progress_witness :
    ([⟨"a.png", Except.error "boom", Except.ok [],
        fun _ => Except.ok (), Except.ok (), Except.ok ()⟩,
      ⟨"b.png", Except.error "boom", Except.ok [],
        fun _ => Except.ok (), Except.ok (), Except.ok ()⟩] : List FileEnv) ≠ [] ∧
    ((progressValues (CropWorker.run
        [⟨"a.png", Except.error "boom", Except.ok [],
            fun _ => Except.ok (), Except.ok (), Except.ok ()⟩,
          ⟨"b.png", Except.error "boom", Except.ok [],
            fun _ => Except.ok (), Except.ok (), Except.ok ()⟩])).length = 2 ∧
      (∀ k (hk : k < (progressValues (CropWorker.run
          [⟨"a.png", Except.error "boom", Except.ok [],
              fun _ => Except.ok (), Except.ok (), Except.ok ()⟩,
            ⟨"b.png", Except.error "boom", Except.ok [],
              fun _ => Except.ok (), Except.ok (), Except.ok ()⟩])).length),
        (progressValues (CropWorker.run
            [⟨"a.png", Except.error "boom", Except.ok [],
                fun _ => Except.ok (), Except.ok (), Except.ok ()⟩,
              ⟨"b.png", Except.error "boom", Except.ok [],
                fun _ => Except.ok (), Except.ok (), Except.ok ()⟩]))[k]
          = pyPct (k + 1) 2) ∧
      (∀ i j (hi : i < (progressValues (CropWorker.run
          [⟨"a.png", Except.error "boom", Except.ok [],
              fun _ => Except.ok (), Except.ok (), Except.ok ()⟩,
            ⟨"b.png", Except.error "boom", Except.ok [],
              fun _ => Except.ok (), Except.ok (), Except.ok ()⟩])).length)
        (hj : j < (progressValues (CropWorker.run
          [⟨"a.png", Except.error "boom", Except.ok [],
              fun _ => Except.ok (), Except.ok (), Except.ok ()⟩,
            ⟨"b.png", Except.error "boom", Except.ok [],
              fun _ => Except.ok (), Except.ok (), Except.ok ()⟩])).length), i ≤ j →
        (progressValues (CropWorker.run
            [⟨"a.png", Except.error "boom", Except.ok [],
                fun _ => Except.ok (), Except.ok (), Except.ok ()⟩,
              ⟨"b.png", Except.error "boom", Except.ok [],
                fun _ => Except.ok (), Except.ok (), Except.ok ()⟩]))[i]
          ≤ (progressValues (CropWorker.run
            [⟨"a.png", Except.error "boom", Except.ok [],
                fun _ => Except.ok (), Except.ok (), Except.ok ()⟩,
              ⟨"b.png", Except.error "boom", Except.ok [],
                fun _ => Except.ok (), Except.ok (), Except.ok ()⟩]))[j]) ∧
      (∀ v ∈ progressValues (CropWorker.run
          [⟨"a.png", Except.error "boom", Except.ok [],
              fun _ => Except.ok (), Except.ok (), Except.ok ()⟩,
            ⟨"b.png", Except.error "boom", Except.ok [],
              fun _ => Except.ok (), Except.ok (), Except.ok ()⟩]), v ≤ 100) ∧
      (progressValues (CropWorker.run
          [⟨"a.png", Except.error "boom", Except.ok [],
              fun _ => Except.ok (), Except.ok (), Except.ok ()⟩,
            ⟨"b.png", Except.error "boom", Except.ok [],
              fun _ => Except.ok (), Except.ok (), Except.ok ()⟩])).getLast?
        = some 100 ∧
      ((2 : ℕ) ≤ 2 ^ 40 →
        ∀ k (hk : k < (progressValues (CropWorker.run
            [⟨"a.png", Except.error "boom", Except.ok [],
                fun _ => Except.ok (), Except.ok (), Except.ok ()⟩,
              ⟨"b.png", Except.error "boom", Except.ok [],
                fun _ => Except.ok (), Except.ok (), Except.ok ()⟩])).length),
          ⌊((k : ℚ) + 1) / ((2 : ℕ) : ℚ) * 100⌋ - 1
              ≤ ((progressValues (CropWorker.run
                [⟨"a.png", Except.error "boom", Except.ok [],
                    fun _ => Except.ok (), Except.ok (), Except.ok ()⟩,
                  ⟨"b.png", Except.error "boom", Except.ok [],
                    fun _ => Except.ok (), Except.ok (), Except.ok ()⟩]))[k] : ℤ) ∧
            ((progressValues (CropWorker.run
                [⟨"a.png", Except.error "boom", Except.ok [],
                    fun _ => Except.ok (), Except.ok (), Except.ok ()⟩,
                  ⟨"b.png", Except.error "boom", Except.ok [],
                    fun _ => Except.ok (), Except.ok (), Except.ok ()⟩]))[k] : ℤ)
              ≤ ⌊((k : ℚ) + 1) / ((2 : ℕ) : ℚ) * 100⌋)) :=
  ⟨List.cons_ne_nil _ _, C4_progress_amended _ (List.cons_ne_nil _ _)⟩
